import Mathlib

/-!
# Verification of the meshcore-coverage-map prefix-disambiguation core

Shallow embedding of the server's prefix-disambiguation engine
(`src/server/src/utils/shared.js`, prefix-disambiguation part), the path
utilities (`src/server/src/utils/path-utils.js`), and the `/get-nodes`
sample aggregation (`src/server/src/routes/nodes.js`).

Modelling conventions:
* JavaScript numbers are modelled as `ℚ` (all arithmetic performed by the
  embedded code is exact on the inputs it receives); epoch timestamps are `ℤ`.
* JavaScript `Map`s (which iterate in insertion order) are modelled as
  association lists `List (String × α)` in insertion order.
* `null`/`undefined`-able values are `Option`s; JavaScript truthiness tests
  are translated explicitly at each use site.
* Library functions that are external to the repository and transcendental
  (`Math.exp`, the Haversine `calculateDistance` of `geo-utils.js` built on
  `Math.sin`/`cos`/`atan2`/`sqrt`, and `ngeohash`'s `decode` used by
  `posFromHash`) are abstracted as parameters collected in `Env`; a decode
  failure (exception) is `none`.
-/

namespace MeshCov

/-! ## Association-list helpers (model of JavaScript `Map`) -/

/-- Lookup in an insertion-ordered association list (JS `Map.get`). -/
def assocFind (m : List (String × α)) (k : String) : Option α :=
  (m.find? (fun kv => kv.1 = k)).map (·.2)

/-- Replace the value at key `k` (JS mutation of `Map.get(k)` contents). -/
def updateVal (m : List (String × α)) (k : String) (f : α → α) :
    List (String × α) :=
  m.map (fun kv => if kv.1 = k then (kv.1, f kv.2) else kv)

/-- JS `if (!m.has(k)) m.set(k, []); m.get(k).push(v)`. -/
def assocPush (m : List (String × List α)) (k : String) (v : α) :
    List (String × List α) :=
  if (assocFind m k).isSome then
    updateVal m k (fun l => l ++ [v])
  else
    m ++ [(k, [v])]

/-- JS `counts.set(k, (counts.get(k) || 0) + 1)`. -/
def bumpCount (m : List (String × ℕ)) (k : String) : List (String × ℕ) :=
  if (assocFind m k).isSome then
    updateVal m k (fun n => n + 1)
  else
    m ++ [(k, 1)]

/-! ## `path-utils.js` -/

/-- JavaScript `String.prototype.toUpperCase` as used on ASCII prefixes
(structurally recursive model, equivalent to `String.toUpper`). -/
def jsToUpper (s : String) : String :=
  ⟨s.data.map Char.toUpper⟩

/-- `getHashPrefix` from `path-utils.js`: extract a canonical 2-character
uppercase prefix, skipping a leading `0x`/`0X` marker; `null` on a falsy
(empty) input string. -/
def getHashPrefix (hash : String) : Option String :=
  if hash = "" then none
  else if hash.startsWith "0x" ∨ hash.startsWith "0X" then
    some (jsToUpper ((hash.drop 2).take 2))
  else
    some (jsToUpper (hash.take 2))

/-- Result record of `parsePath`. -/
structure ParsedPath where
  effective : List String
  original : List String
  hadLocal : Bool
  effectiveLength : ℕ
  deriving DecidableEq

/-- `parsePath` from `path-utils.js`.  The raw path may be `null`
(modelled as `none`) or an array; an empty path yields `null`. -/
def parsePath (path : Option (List String)) (localHash : Option String) :
    Option ParsedPath :=
  match path with
  | none => none
  | some p =>
    if p.isEmpty then none
    else
      let original := p.map jsToUpper
      let localPrefix := localHash.bind getHashPrefix
      let hadLocal : Bool :=
        match localPrefix with
        | none => false
        | some lp => original.getLast? = some lp
      let effective := if hadLocal then original.dropLast else original
      some ⟨effective, original, hadLocal, effective.length⟩

/-- `getPositionFromIndex` from `path-utils.js`: 1-indexed position from the
end of the effective path. -/
def getPositionFromIndex (index effectiveLength : ℤ) : ℤ :=
  effectiveLength - index

/-! ## Environment of abstracted library functions -/

/-- The ambient library functions used by the disambiguation engine, plus the
current time.  `rexp` stands for `Math.exp`; `dist` for
`calculateDistance(lat1, lon1, lat2, lon2)` from `geo-utils.js` (great-circle
distance in meters); `decode` for `posFromHash` (`ngeohash.decode`), with
`none` for a decoding exception; `now` for `Math.floor(Date.now() / 1000)`. -/
structure Env where
  rexp : ℚ → ℚ
  dist : ℚ → ℚ → ℚ → ℚ → ℚ
  decode : String → Option (ℚ × ℚ)
  now : ℤ

/-! ## Constants and helpers of the disambiguation engine (`shared.js`) -/

/-- `SCORE_WEIGHTS` from `shared.js`. -/
structure Weights where
  position : ℚ
  cooccurrence : ℚ
  geographic : ℚ
  recency : ℚ

def SCORE_WEIGHTS : Weights :=
  { position := 0.15, cooccurrence := 0.15, geographic := 0.40, recency := 0.30 }

def MAX_POSITIONS : ℕ := 5

/-- 14 days. -/
def MAX_CANDIDATE_AGE_HOURS : ℚ := 336

def RECENCY_DECAY_HOURS : ℚ := 12

/-- `calculateRecencyScore` from `shared.js`.  `lastSeenTimestamp` is an epoch
in seconds, `0` (or negative) meaning unknown (the JS test is
`!lastSeenTimestamp || lastSeenTimestamp <= 0`); `now` is the supplied or
ambient current time in seconds. -/
def calculateRecencyScore (rexp : ℚ → ℚ) (lastSeenTimestamp : ℤ) (now : ℤ) : ℚ :=
  if lastSeenTimestamp ≤ 0 then 0.1
  else
    let hoursAgo : ℚ := ((now - lastSeenTimestamp : ℤ) : ℚ) / 3600
    if hoursAgo < 0 then 1
    else rexp (-hoursAgo / RECENCY_DECAY_HOURS)

/-- `isCandidateTooOld` from `shared.js`. -/
def isCandidateTooOld (lastSeenTimestamp : ℤ) (now : ℤ) : Bool :=
  if lastSeenTimestamp ≤ 0 then false
  else
    let hoursAgo : ℚ := ((now - lastSeenTimestamp : ℤ) : ℚ) / 3600
    hoursAgo > MAX_CANDIDATE_AGE_HOURS

/-! ## Input records -/

/-- A repeater row as consumed by `buildPrefixLookup` (the used fields of
`repeater.metadata`, each possibly absent). `time` is in milliseconds. -/
structure Repeater where
  id : Option String
  lat : Option ℚ
  lon : Option ℚ
  time : Option ℤ
  name : Option String
  deriving DecidableEq

/-- A sample row (the used fields of `sample` / `sample.metadata`): `name` is
the 8-character geohash, the rest possibly absent. -/
structure Sample where
  name : String
  path : Option (List String)
  time : Option ℤ
  snr : Option ℚ
  rssi : Option ℚ
  observed : Option Bool
  deriving DecidableEq

/-- The per-repeater record pushed into `repeatersByPrefix`. -/
structure RepInfo where
  pfx : String
  lat : Option ℚ
  lon : Option ℚ
  time : ℤ
  name : Option String
  deriving DecidableEq

/-- A candidate row (one per repeater observation of a prefix). -/
structure Candidate where
  hash : String
  pfx : String
  positionCounts : List ℕ
  totalAppearances : ℕ
  typicalPosition : ℕ
  positionConsistency : ℚ
  adjacentPrefixCounts : List (String × ℕ)
  totalAdjacentObservations : ℕ
  latitude : Option ℚ
  longitude : Option ℚ
  distanceToLocal : Option ℚ
  srcGeoEvidenceScore : ℚ
  srcGeoEvidenceCount : ℕ
  lastSeenTimestamp : ℤ
  recencyScore : ℚ
  positionScore : ℚ
  cooccurrenceScore : ℚ
  geographicScore : ℚ
  combinedScore : ℚ
  deriving DecidableEq

/-- A disambiguation result stored in the lookup. -/
structure LookupEntry where
  pfx : String
  candidates : List Candidate
  bestMatch : Option String
  confidence : ℚ
  isUnambiguous : Bool
  deriving DecidableEq

/-! ## Step 1: group repeaters by prefix -/

/-- `(repeater.metadata?.id || '').toUpperCase()`. -/
def repeaterPrefix (r : Repeater) : String :=
  jsToUpper (r.id.getD "")

/-- `repeater.metadata?.time ? Math.floor(time / 1000) : 0` (ms → s). -/
def repLastSeen (time : Option ℤ) : ℤ :=
  match time with
  | none => 0
  | some t => if t = 0 then 0 else Int.fdiv t 1000

/-- One iteration of the grouping loop over `repeaters`. -/
def groupStep (now : ℤ) (m : List (String × List RepInfo)) (r : Repeater) :
    List (String × List RepInfo) :=
  let pfx := repeaterPrefix r
  if pfx = "" ∨ pfx.length ≠ 2 then m
  else
    let lastSeenTimestamp := repLastSeen r.time
    if isCandidateTooOld lastSeenTimestamp now then m
    else assocPush m pfx ⟨pfx, r.lat, r.lon, lastSeenTimestamp, r.name⟩

def groupRepeaters (now : ℤ) (repeaters : List Repeater) :
    List (String × List RepInfo) :=
  repeaters.foldl (groupStep now) []

/-- Initial candidate object for one repeater of prefix `pfx` (the map key). -/
def mkCandidate (rexp : ℚ → ℚ) (now : ℤ) (pfx : String) (r : RepInfo) :
    Candidate :=
  { hash := pfx
    pfx := pfx
    positionCounts := List.replicate MAX_POSITIONS 0
    totalAppearances := 0
    typicalPosition := 0
    positionConsistency := 0
    adjacentPrefixCounts := []
    totalAdjacentObservations := 0
    latitude := r.lat
    longitude := r.lon
    distanceToLocal := none
    srcGeoEvidenceScore := 0
    srcGeoEvidenceCount := 0
    lastSeenTimestamp := r.time
    recencyScore := calculateRecencyScore rexp r.time now
    positionScore := 0
    cooccurrenceScore := 0
    geographicScore := 0.2
    combinedScore := 0 }

/-! ## Step 2: sample pass -/

/-- JS truthiness of a possibly-absent number (`undefined`, `null` and `0`
are falsy). -/
def truthy (o : Option ℚ) : Bool :=
  match o with
  | none => false
  | some x => x ≠ 0

/-- The evidence bucketing applied to a source distance (meters). -/
def evidenceFor (distToSrc : ℚ) : ℚ :=
  if distToSrc < 500 then 1
  else if distToSrc < 2000 then 0.8
  else if distToSrc < 5000 then 0.5
  else if distToSrc < 10000 then 0.3
  else 0.1

/-- Increment the entry at a given index of the position histogram. -/
def incAt : List ℕ → ℕ → List ℕ
  | [], _ => []
  | x :: xs, 0 => (x + 1) :: xs
  | x :: xs, n + 1 => x :: incAt xs n

/-- The per-occurrence update of one candidate inside the sample loop:
position histogram, appearance count, source-geographic evidence (only at
position 1 with more than one candidate and truthy coordinates), and
adjacency counts for the previous/next path elements. -/
def updateCandOcc (dist : ℚ → ℚ → ℚ → ℚ → ℚ) (srcLat srcLon : ℚ)
    (position : ℤ) (nCands : ℕ) (prev next : Option String) (c : Candidate) :
    Candidate :=
  let positionIndex := (min (position - 1) (MAX_POSITIONS - 1 : ℤ)).toNat
  let c := { c with
    positionCounts := incAt c.positionCounts positionIndex
    totalAppearances := c.totalAppearances + 1 }
  let c :=
    if position = 1 ∧ 1 < nCands ∧ truthy c.latitude = true ∧
        truthy c.longitude = true then
      let distToSrc :=
        dist srcLat srcLon (c.latitude.getD 0) (c.longitude.getD 0)
      { c with
        srcGeoEvidenceScore := c.srcGeoEvidenceScore + evidenceFor distToSrc
        srcGeoEvidenceCount := c.srcGeoEvidenceCount + 1 }
    else c
  let c :=
    match prev with
    | some q => { c with
        adjacentPrefixCounts := bumpCount c.adjacentPrefixCounts q
        totalAdjacentObservations := c.totalAdjacentObservations + 1 }
    | none => c
  match next with
  | some q => { c with
      adjacentPrefixCounts := bumpCount c.adjacentPrefixCounts q
      totalAdjacentObservations := c.totalAdjacentObservations + 1 }
  | none => c

/-- Processing of index `i` of the effective path of one sample. -/
def processIndex (dist : ℚ → ℚ → ℚ → ℚ → ℚ) (srcLat srcLon : ℚ)
    (parsed : ParsedPath) (m : List (String × List Candidate)) (i : ℕ) :
    List (String × List Candidate) :=
  let pfx := (parsed.effective.getD i "")
  match assocFind m pfx with
  | none => m
  | some candidates =>
    let position := getPositionFromIndex i parsed.effectiveLength
    let prev := if 0 < i then some (parsed.effective.getD (i - 1) "") else none
    let next :=
      if i < parsed.effective.length - 1 then
        some (parsed.effective.getD (i + 1) "")
      else none
    updateVal m pfx
      (List.map
        (updateCandOcc dist srcLat srcLon position candidates.length prev next))

/-- Processing of one sample (step 2 of `buildPrefixLookup`). -/
def processSample (dist : ℚ → ℚ → ℚ → ℚ → ℚ)
    (decode : String → Option (ℚ × ℚ)) (localHash : Option String)
    (m : List (String × List Candidate)) (s : Sample) :
    List (String × List Candidate) :=
  let path := s.path.getD []
  if path.isEmpty then m
  else
    match parsePath (some path) localHash with
    | none => m
    | some parsed =>
      if parsed.effectiveLength = 0 then m
      else
        match decode s.name with
        | none => m
        | some (srcLat, srcLon) =>
          (List.range parsed.effective.length).foldl
            (processIndex dist srcLat srcLon parsed) m

/-! ## Step 3: score computation -/

def maxAppearancesOf (m : List (String × List Candidate)) : ℕ :=
  m.foldl (fun acc kv => kv.2.foldl (fun a c => max a c.totalAppearances) acc) 1

def maxAdjacentOf (m : List (String × List Candidate)) : ℕ :=
  m.foldl
    (fun acc kv => kv.2.foldl (fun a c => max a c.totalAdjacentObservations) acc)
    1

/-- The `maxCount` / `typicalPos` scan over the 5 position buckets
(`maxCount` starts at 0, `typicalPos` at 1, strict `>` so the earliest
maximal bucket wins). -/
def typicalOf (counts : List ℕ) : ℕ × ℕ :=
  (List.range MAX_POSITIONS).foldl
    (fun mt i => if counts.getD i 0 > mt.1 then (counts.getD i 0, i + 1) else mt)
    (0, 1)

/-- The per-candidate score computation of step 3. -/
def scoreCandidate (maxAppearances maxAdjacentObs : ℕ) (c : Candidate) :
    Candidate :=
  let c :=
    if 0 < c.totalAppearances then
      let mt := typicalOf c.positionCounts
      let positionConsistency : ℚ := (mt.1 : ℚ) / (c.totalAppearances : ℚ)
      let frequencyScore : ℚ := (c.totalAppearances : ℚ) / (maxAppearances : ℚ)
      { c with
        typicalPosition := mt.2
        positionConsistency := positionConsistency
        positionScore := positionConsistency * 0.6 + frequencyScore * 0.4 }
    else c
  let c :=
    if 0 < c.totalAdjacentObservations then
      { c with cooccurrenceScore :=
          (c.totalAdjacentObservations : ℚ) / (maxAdjacentObs : ℚ) }
    else c
  let c := { c with combinedScore :=
      c.positionScore * SCORE_WEIGHTS.position +
      c.cooccurrenceScore * SCORE_WEIGHTS.cooccurrence +
      c.geographicScore * SCORE_WEIGHTS.geographic +
      c.recencyScore * SCORE_WEIGHTS.recency }
  if 0 < c.srcGeoEvidenceCount then
    let avgEvidence := c.srcGeoEvidenceScore / (c.srcGeoEvidenceCount : ℚ)
    let observationWeight := min ((c.srcGeoEvidenceCount : ℚ) / 50) 1
    { c with combinedScore :=
        c.combinedScore + avgEvidence * observationWeight * 0.3 }
  else c

/-! ## Step 4: building the disambiguation results -/

/-- Stable insertion into a descending-by-`combinedScore` list (model of the
stable JS `Array.prototype.sort` with comparator
`(a, b) => b.combinedScore - a.combinedScore`). -/
def insertDesc (c : Candidate) : List Candidate → List Candidate
  | [] => [c]
  | d :: ds =>
    if c.combinedScore > d.combinedScore then c :: d :: ds
    else d :: insertDesc c ds

/-- Stable sort by `combinedScore` descending. -/
def sortDesc : List Candidate → List Candidate
  | [] => []
  | c :: cs => insertDesc c (sortDesc cs)

/-- Build the lookup entry for one prefix from its candidate list (step 4). -/
def mkEntry (pfx : String) (cands : List Candidate) : LookupEntry :=
  let sorted := sortDesc cands
  let bestMatch := sorted.head?.map (·.hash)
  let confidence : ℚ :=
    match sorted with
    | [] => 0
    | [_] => 1
    | a :: b :: _ =>
      let best := a.combinedScore
      let second := b.combinedScore
      let conf := if best > 0 then min 1 ((best - second) / best) else 0
      if a.totalAppearances > b.totalAppearances * 2 then min 1 (conf + 0.2)
      else conf
  { pfx := pfx
    candidates := sorted
    bestMatch := bestMatch
    confidence := confidence
    isUnambiguous := sorted.length = 1 }

/-- `buildPrefixLookup` from `shared.js`. -/
def buildPrefixLookup (env : Env) (samples : List Sample)
    (repeaters : List Repeater) (localHash : Option String) :
    List (String × LookupEntry) :=
  let repeatersByPrefix := groupRepeaters env.now repeaters
  let prefixToCandidates :=
    repeatersByPrefix.map
      (fun kv => (kv.1, kv.2.map (mkCandidate env.rexp env.now kv.1)))
  let afterSamples :=
    samples.foldl (processSample env.dist env.decode localHash)
      prefixToCandidates
  let maxAppearances := maxAppearancesOf afterSamples
  let maxAdjacentObs := maxAdjacentOf afterSamples
  let scored :=
    afterSamples.map
      (fun kv => (kv.1, kv.2.map (scoreCandidate maxAppearances maxAdjacentObs)))
  scored.map (fun kv => (kv.1, mkEntry kv.1 kv.2))

/-! ## Read path: `resolvePrefix` / `disambiguatePath` -/

/-- The `{ hash, confidence }` record returned by `resolvePrefix`. -/
structure ResolveResult where
  hash : Option String
  confidence : ℚ
  deriving DecidableEq

/-- `resolvePrefix` from `shared.js`. -/
def resolvePrefix (lookup : List (String × LookupEntry)) (pfx : String) :
    ResolveResult :=
  let normalized := jsToUpper pfx
  match assocFind lookup normalized with
  | none => ⟨none, 0⟩
  | some result =>
    if result.candidates.isEmpty then ⟨none, 0⟩
    else ⟨result.bestMatch, result.confidence⟩

/-- One element of the `disambiguatePath` map: `resolved.hash || prefix`
(`null` and the empty string are falsy). -/
def resolveElem (lookup : List (String × LookupEntry)) (pfx : String) :
    String :=
  match (resolvePrefix lookup pfx).hash with
  | none => pfx
  | some h => if h = "" then pfx else h

/-- The element-wise body of `disambiguatePath` on an actual array. -/
def disambiguateList (lookup : List (String × LookupEntry))
    (path : List String) : List String :=
  path.map (resolveElem lookup)

/-- `disambiguatePath` from `shared.js` (a non-array input is returned
unchanged). -/
def disambiguatePath (lookup : List (String × LookupEntry))
    (path : Option (List String)) : Option (List String) :=
  match path with
  | none => none
  | some l => some (disambiguateList lookup l)

/-! ## `/get-nodes` sample aggregation (`nodes.js`) -/

/-- `TIME_TRUNCATION` and `truncateTime` from `shared.js`
(`Math.round(time / 100000)`, JS `Math.round` being floor of `x + 1/2`). -/
def TIME_TRUNCATION : ℤ := 100000

def truncateTime (time : ℤ) : ℤ :=
  ⌊(time : ℚ) / (TIME_TRUNCATION : ℚ) + 1 / 2⌋

/-- One per-6-char-geohash aggregate (the mutable record stored in
`sampleAggregates`).  `repeaters` models the insertion-ordered JS `Set`. -/
structure SampleAgg where
  total : ℕ
  observed : ℕ
  heard : ℕ
  lastTime : ℤ
  repeaters : List String
  snr : Option ℚ
  rssi : Option ℚ
  deriving DecidableEq

def initAgg : SampleAgg :=
  { total := 0, observed := 0, heard := 0, lastTime := 0, repeaters := []
    snr := none, rssi := none }

/-- `Set.add` on the insertion-ordered model. -/
def setAdd (s : List String) (x : String) : List String :=
  if x ∈ s then s else s ++ [x]

/-- The per-sample mutation of its tile's aggregate. -/
def sampleStep (lookup : List (String × LookupEntry)) (agg : SampleAgg)
    (s : Sample) : SampleAgg :=
  let rawPath := s.path.getD []
  let path := disambiguateList lookup rawPath
  let heard : Bool := !path.isEmpty
  let observed : Bool := s.observed.getD heard
  let time : ℤ := s.time.getD 0
  { agg with
    total := agg.total + 1
    observed := if observed then agg.observed + 1 else agg.observed
    heard := if heard then agg.heard + 1 else agg.heard
    lastTime := if time > agg.lastTime then time else agg.lastTime
    snr :=
      match s.snr with
      | none => agg.snr
      | some v =>
        some (match agg.snr with | none => v | some w => max w v)
    rssi :=
      match s.rssi with
      | none => agg.rssi
      | some v =>
        some (match agg.rssi with | none => v | some w => max w v)
    repeaters := path.foldl setAdd agg.repeaters }

/-- One iteration of the `samples.forEach` aggregation loop. -/
def aggStep (lookup : List (String × LookupEntry))
    (m : List (String × SampleAgg)) (s : Sample) :
    List (String × SampleAgg) :=
  let pfx := s.name.take 6
  match assocFind m pfx with
  | none => m ++ [(pfx, sampleStep lookup initAgg s)]
  | some agg => updateVal m pfx (fun _ => sampleStep lookup agg s)

/-- The whole aggregation pass of `GET /get-nodes`. -/
def aggregateSamples (lookup : List (String × LookupEntry))
    (samples : List Sample) : List (String × SampleAgg) :=
  samples.foldl (aggStep lookup) []

/-- Insertion sort on strings (model of the default JS `Array.sort` used on
the resolved repeater ids). -/
def insertStr (x : String) : List String → List String
  | [] => [x]
  | y :: ys => if x ≤ y then x :: y :: ys else y :: insertStr x ys

def sortStrings (l : List String) : List String :=
  l.foldr insertStr []

/-- One item of the `aggregatedSamples` response array. -/
structure AggItem where
  id : String
  time : ℤ
  obs : ℕ
  heard : ℕ
  lost : ℤ
  path : Option (List String)
  snr : Option ℚ
  rssi : Option ℚ
  deriving DecidableEq

/-- Conversion of one aggregate to its response item. -/
def mkAggItem (id : String) (agg : SampleAgg) : AggItem :=
  let path := agg.repeaters
  let lost : ℤ := (agg.total : ℤ) - (agg.heard : ℤ)
  { id := id
    time := truncateTime agg.lastTime
    obs := if 0 < agg.observed then 1 else 0
    heard := agg.heard
    lost := lost
    path := if path.isEmpty then none else some (sortStrings path)
    snr := agg.snr
    rssi := agg.rssi }

end MeshCov

/-! ## Association-list lemmas -/

namespace MeshCov

theorem assocFind_nil (k : String) : assocFind ([] : List (String × α)) k = none := rfl

theorem assocFind_cons (kv : String × α) (m : List (String × α)) (k : String) :
    assocFind (kv :: m) k = if kv.1 = k then some kv.2 else assocFind m k := by
  by_cases h : kv.1 = k <;> simp [assocFind, h]

theorem assocFind_updateVal (m : List (String × α)) (k k' : String) (f : α → α) :
    assocFind (updateVal m k f) k' =
      if k' = k then (assocFind m k).map f else assocFind m k' := by
  induction m with
  | nil => simp [updateVal, assocFind]
  | cons kv m ih =>
    simp only [updateVal, List.map_cons] at ih ⊢
    by_cases h1 : kv.1 = k
    · by_cases h2 : k' = k
      · subst h2; simp [assocFind_cons, h1, ih]
      · have h3 : ¬ kv.1 = k' := by rw [h1]; exact fun hh => h2 hh.symm
        have h4 : ¬ k = k' := fun hh => h2 hh.symm
        simp [assocFind_cons, h1, h2, h3, h4, ih]
    · by_cases h2 : k' = k
      · subst h2
        have h3 : ¬ kv.1 = k' := h1
        simp [assocFind_cons, h1, h3, ih]
      · simp only [if_neg h1, assocFind_cons, ih, if_neg h2]

theorem assocFind_append_single (m : List (String × α)) (k k' : String) (v : α) :
    assocFind (m ++ [(k, v)]) k' =
      ((assocFind m k').or (if k = k' then some v else none)) := by
  by_cases h : k = k'
  · subst h
    simp only [assocFind, List.find?_append, if_pos rfl]
    generalize List.find? (fun kv => decide (kv.1 = k)) m = o
    rcases o with _ | kv <;> simp
  · simp [assocFind, List.find?_append, h]

theorem assocFind_assocPush (m : List (String × List α)) (k k' : String) (v : α) :
    assocFind (assocPush m k v) k' =
      if k' = k then some ((assocFind m k).getD [] ++ [v])
      else assocFind m k' := by
  unfold assocPush
  by_cases hs : (assocFind m k).isSome
  · rw [if_pos hs, assocFind_updateVal]
    by_cases h : k' = k
    · subst h
      obtain ⟨l, hl⟩ := Option.isSome_iff_exists.mp hs
      simp [hl]
    · simp [h]
  · rw [if_neg hs, assocFind_append_single]
    rw [Option.not_isSome_iff_eq_none] at hs
    by_cases h : k' = k
    · subst h; simp [hs]
    · have h2 : ¬ k = k' := fun hh => h hh.symm
      simp [h, h2]

theorem assocFind_mem {m : List (String × α)} {k : String} {v : α}
    (h : assocFind m k = some v) : (k, v) ∈ m := by
  unfold assocFind at h
  rcases ho : m.find? (fun kv => kv.1 = k) with _ | kv
  · rw [ho] at h; simp at h
  · rw [ho] at h
    have h1 := List.find?_some ho
    have h2 := List.mem_of_find?_eq_some ho
    simp at h h1
    obtain ⟨a, b⟩ := kv
    simp only at h h1
    subst h1
    subst h
    exact h2

/-! ## Sorting lemmas (step 4 sort) -/

theorem insertDesc_perm (c : Candidate) (l : List Candidate) :
    List.Perm (insertDesc c l) (c :: l) := by
  induction l with
  | nil => simp [insertDesc]
  | cons d ds ih =>
    unfold insertDesc
    by_cases h : c.combinedScore > d.combinedScore
    · rw [if_pos h]
    · rw [if_neg h]
      exact (ih.cons d).trans (List.Perm.swap c d ds)

theorem sortDesc_perm (l : List Candidate) : List.Perm (sortDesc l) l := by
  induction l with
  | nil => simp [sortDesc]
  | cons c cs ih =>
    unfold sortDesc
    exact (insertDesc_perm c (sortDesc cs)).trans (ih.cons c)

theorem sortDesc_mem {c : Candidate} {l : List Candidate} :
    c ∈ sortDesc l ↔ c ∈ l :=
  (sortDesc_perm l).mem_iff

theorem sortDesc_length (l : List Candidate) :
    (sortDesc l).length = l.length :=
  (sortDesc_perm l).length_eq

/-- The descending-order invariant on candidate lists. -/
def SortedDesc (l : List Candidate) : Prop :=
  List.Chain' (fun a b => b.combinedScore ≤ a.combinedScore) l

theorem insertDesc_sorted {l : List Candidate} (c : Candidate)
    (h : SortedDesc l) : SortedDesc (insertDesc c l) := by
  induction l with
  | nil => simp [insertDesc, SortedDesc]
  | cons d ds ih =>
    unfold insertDesc
    by_cases hc : c.combinedScore > d.combinedScore
    · rw [if_pos hc]
      exact List.Chain'.cons (le_of_lt hc) h
    · rw [if_neg hc]
      have hds : SortedDesc ds := List.Chain'.tail h
      have htail := ih hds
      refine List.Chain'.cons' htail ?_
      intro y hy
      rcases ds with _ | ⟨e, es⟩
      · simp [insertDesc] at hy
        subst hy
        exact not_lt.mp hc
      · unfold insertDesc at hy
        by_cases he : c.combinedScore > e.combinedScore
        · rw [if_pos he] at hy
          simp at hy
          subst hy
          exact not_lt.mp hc
        · rw [if_neg he] at hy
          simp at hy
          subst hy
          exact (List.chain'_cons.mp h).1

theorem sortDesc_sorted (l : List Candidate) : SortedDesc (sortDesc l) := by
  induction l with
  | nil => simp [sortDesc, SortedDesc]
  | cons c cs ih => exact insertDesc_sorted c ih

/-! ## Confidence of a lookup entry -/

/-- The confidence formula exactly as the specification words it: for two or
more candidates, `clamp((best − second) / best, 0, 1)` of the top two combined
scores when `best > 0` and `0` otherwise, with `0.2` added (result clamped to
`1.0`) when the top candidate's total appearance count exceeds twice the
second candidate's. -/
def claimConfidence (candidates : List Candidate) : ℚ :=
  match candidates with
  | [] => 0
  | [_] => 1
  | a :: b :: _ =>
    let best := a.combinedScore
    let second := b.combinedScore
    let base := if 0 < best then max 0 (min 1 ((best - second) / best)) else 0
    if 2 * b.totalAppearances < a.totalAppearances then min 1 (base + 0.2)
    else base

theorem mkEntry_candidates (p : String) (l : List Candidate) :
    (mkEntry p l).candidates = sortDesc l := rfl

theorem mkEntry_isUnambiguous (p : String) (l : List Candidate) :
    (mkEntry p l).isUnambiguous = decide ((sortDesc l).length = 1) := rfl

theorem mkEntry_bestMatch (p : String) (l : List Candidate) :
    (mkEntry p l).bestMatch = (sortDesc l).head?.map (·.hash) := rfl

theorem mkEntry_confidence (p : String) (l : List Candidate) :
    (mkEntry p l).confidence =
      match sortDesc l with
      | [] => 0
      | [_] => 1
      | a :: b :: _ =>
        let conf :=
          if a.combinedScore > 0 then
            min 1 ((a.combinedScore - b.combinedScore) / a.combinedScore)
          else 0
        if a.totalAppearances > b.totalAppearances * 2 then min 1 (conf + 0.2)
        else conf := rfl

theorem mkEntry_confidence_single (p : String) (l : List Candidate)
    (h : (mkEntry p l).candidates.length = 1) : (mkEntry p l).confidence = 1 := by
  rw [mkEntry_candidates] at h
  rw [mkEntry_confidence]
  rcases hs : sortDesc l with _ | ⟨a, _ | ⟨b, t⟩⟩ <;> rw [hs] at h <;> simp_all

theorem mkEntry_confidence_multi (p : String) (l : List Candidate)
    (h : 2 ≤ (mkEntry p l).candidates.length) :
    (mkEntry p l).confidence = claimConfidence (mkEntry p l).candidates := by
  rw [mkEntry_candidates] at h ⊢
  rw [mkEntry_confidence]
  rcases hs : sortDesc l with _ | ⟨a, _ | ⟨b, t⟩⟩ <;> rw [hs] at h
  · simp at h
  · simp at h
  · have hsorted : SortedDesc (a :: b :: t) := hs ▸ sortDesc_sorted l
    have hba : b.combinedScore ≤ a.combinedScore :=
      (List.chain'_cons.mp hsorted).1
    simp only [claimConfidence]
    have hbase : (if a.combinedScore > 0 then
          min 1 ((a.combinedScore - b.combinedScore) / a.combinedScore)
        else 0) =
        (if 0 < a.combinedScore then
          max 0 (min 1 ((a.combinedScore - b.combinedScore) / a.combinedScore))
        else 0) := by
      by_cases hpos : 0 < a.combinedScore
      · rw [if_pos hpos, if_pos hpos]
        have hx : 0 ≤ (a.combinedScore - b.combinedScore) / a.combinedScore :=
          div_nonneg (by linarith) (le_of_lt hpos)
        rw [max_eq_right (le_min (by norm_num) hx)]
      · rw [if_neg hpos, if_neg hpos]
    rw [hbase]
    by_cases hc : a.totalAppearances > b.totalAppearances * 2
    · rw [if_pos hc,
        if_pos (show 2 * b.totalAppearances < a.totalAppearances by omega)]
    · rw [if_neg hc,
        if_neg (show ¬ 2 * b.totalAppearances < a.totalAppearances by omega)]

theorem mkEntry_confidence_bounds (p : String) (l : List Candidate) :
    0 ≤ (mkEntry p l).confidence ∧ (mkEntry p l).confidence ≤ 1 := by
  rw [mkEntry_confidence]
  rcases hs : sortDesc l with _ | ⟨a, _ | ⟨b, t⟩⟩
  · norm_num
  · norm_num
  · simp only []
    set base := (if a.combinedScore > 0 then
        min 1 ((a.combinedScore - b.combinedScore) / a.combinedScore)
      else 0) with hbase
    have hsorted : SortedDesc (a :: b :: t) := hs ▸ sortDesc_sorted l
    have hba : b.combinedScore ≤ a.combinedScore :=
      (List.chain'_cons.mp hsorted).1
    have h0 : 0 ≤ base := by
      rw [hbase]
      by_cases hpos : a.combinedScore > 0
      · rw [if_pos hpos]
        exact le_min (by norm_num)
          (div_nonneg (by linarith) (le_of_lt hpos))
      · rw [if_neg hpos]
    have h1 : base ≤ 1 := by
      rw [hbase]
      by_cases hpos : a.combinedScore > 0
      · rw [if_pos hpos]; exact min_le_left _ _
      · rw [if_neg hpos]; norm_num
    by_cases hc : a.totalAppearances > b.totalAppearances * 2
    · rw [if_pos hc]
      constructor
      · exact le_min (by norm_num) (by linarith)
      · exact min_le_left _ _
    · rw [if_neg hc]
      exact ⟨h0, h1⟩

/-! ## Pipeline stages of `buildPrefixLookup`, and shape preservation -/

/-- The candidate map after steps 1–2 (grouping, candidate creation, sample
pass). -/
def stageAfterSamples (env : Env) (samples : List Sample)
    (repeaters : List Repeater) (localHash : Option String) :
    List (String × List Candidate) :=
  samples.foldl (processSample env.dist env.decode localHash)
    ((groupRepeaters env.now repeaters).map
      (fun kv => (kv.1, kv.2.map (mkCandidate env.rexp env.now kv.1))))

/-- The candidate map after step 3 (scoring). -/
def stageScored (env : Env) (samples : List Sample)
    (repeaters : List Repeater) (localHash : Option String) :
    List (String × List Candidate) :=
  let m := stageAfterSamples env samples repeaters localHash
  m.map (fun kv =>
    (kv.1, kv.2.map (scoreCandidate (maxAppearancesOf m) (maxAdjacentOf m))))

theorem buildPrefixLookup_eq (env : Env) (samples : List Sample)
    (repeaters : List Repeater) (localHash : Option String) :
    buildPrefixLookup env samples repeaters localHash =
      (stageScored env samples repeaters localHash).map
        (fun kv => (kv.1, mkEntry kv.1 kv.2)) := rfl

/-- The shape of a candidate map: its keys and per-key list of `hash`es. -/
def candShape (m : List (String × List Candidate)) :
    List (String × List String) :=
  m.map (fun kv => (kv.1, kv.2.map (·.hash)))

theorem updateCandOcc_hash (dist : ℚ → ℚ → ℚ → ℚ → ℚ) (srcLat srcLon : ℚ)
    (position : ℤ) (nCands : ℕ) (prev next : Option String) (c : Candidate) :
    (updateCandOcc dist srcLat srcLon position nCands prev next c).hash =
      c.hash := by
  unfold updateCandOcc
  cases prev <;> cases next <;> dsimp only <;> split <;> rfl

theorem scoreCandidate_hash (maxApp maxAdj : ℕ) (c : Candidate) :
    (scoreCandidate maxApp maxAdj c).hash = c.hash := by
  unfold scoreCandidate
  dsimp only
  split_ifs <;> rfl

theorem candShape_updateVal_map (m : List (String × List Candidate))
    (k : String) (g : Candidate → Candidate) (hg : ∀ c, (g c).hash = c.hash) :
    candShape (updateVal m k (List.map g)) = candShape m := by
  unfold candShape updateVal
  rw [List.map_map]
  apply List.map_congr_left
  intro kv _
  by_cases h : kv.1 = k
  · simp only [Function.comp, if_pos h, List.map_map]
    refine congrArg _ ?_
    apply List.map_congr_left
    intro c _
    exact hg c
  · simp only [Function.comp, if_neg h]

theorem candShape_processIndex (dist : ℚ → ℚ → ℚ → ℚ → ℚ)
    (srcLat srcLon : ℚ) (parsed : ParsedPath)
    (m : List (String × List Candidate)) (i : ℕ) :
    candShape (processIndex dist srcLat srcLon parsed m i) = candShape m := by
  unfold processIndex
  dsimp only
  rcases h : assocFind m (parsed.effective.getD i "") with _ | cands
  · simp only [h]
  · simp only [h]
    exact candShape_updateVal_map m _ _ (updateCandOcc_hash dist srcLat srcLon _ _ _ _)

theorem candShape_foldl {β : Type _} {f : List (String × List Candidate) → β →
      List (String × List Candidate)}
    (hf : ∀ m b, candShape (f m b) = candShape m) (l : List β)
    (m : List (String × List Candidate)) :
    candShape (l.foldl f m) = candShape m := by
  induction l generalizing m with
  | nil => rfl
  | cons b bs ih => rw [List.foldl_cons, ih, hf]

theorem candShape_processSample (dist : ℚ → ℚ → ℚ → ℚ → ℚ)
    (decode : String → Option (ℚ × ℚ)) (localHash : Option String)
    (m : List (String × List Candidate)) (s : Sample) :
    candShape (processSample dist decode localHash m s) = candShape m := by
  unfold processSample
  dsimp only
  split
  · rfl
  split
  · rfl
  split
  · rfl
  split
  · rfl
  exact candShape_foldl (fun m i => candShape_processIndex _ _ _ _ m i) _ m

theorem candShape_stageAfterSamples (env : Env) (samples : List Sample)
    (repeaters : List Repeater) (localHash : Option String) :
    candShape (stageAfterSamples env samples repeaters localHash) =
      (groupRepeaters env.now repeaters).map
        (fun kv => (kv.1, kv.2.map (fun _ => kv.1))) := by
  unfold stageAfterSamples
  rw [candShape_foldl (fun m s => candShape_processSample _ _ _ m s)]
  unfold candShape
  rw [List.map_map]
  apply List.map_congr_left
  intro kv _
  simp only [Function.comp, List.map_map]
  rfl

theorem candShape_stageScored (env : Env) (samples : List Sample)
    (repeaters : List Repeater) (localHash : Option String) :
    candShape (stageScored env samples repeaters localHash) =
      candShape (stageAfterSamples env samples repeaters localHash) := by
  unfold stageScored candShape
  dsimp only
  rw [List.map_map]
  apply List.map_congr_left
  intro kv _
  simp only [Function.comp, List.map_map]
  refine congrArg _ ?_
  apply List.map_congr_left
  intro c _
  exact scoreCandidate_hash _ _ c

/-- Values of the grouping stage are never empty lists. -/
theorem groupRepeaters_values_nonempty (now : ℤ) (repeaters : List Repeater) :
    ∀ kv ∈ groupRepeaters now repeaters, kv.2 ≠ [] := by
  unfold groupRepeaters
  suffices h : ∀ (m : List (String × List RepInfo)),
      (∀ kv ∈ m, kv.2 ≠ []) →
      ∀ kv ∈ repeaters.foldl (groupStep now) m, kv.2 ≠ [] by
    exact h [] (by simp)
  induction repeaters with
  | nil => intro m hm; simpa using hm
  | cons r rs ih =>
    intro m hm
    rw [List.foldl_cons]
    apply ih
    unfold groupStep
    dsimp only
    split
    · exact hm
    split
    · exact hm
    unfold assocPush
    split
    · intro kv hkv
      unfold updateVal at hkv
      obtain ⟨kv', hkv', heq⟩ := List.mem_map.mp hkv
      by_cases h : kv'.1 = repeaterPrefix r
      · rw [if_pos h] at heq
        subst heq
        simp
      · rw [if_neg h] at heq
        subst heq
        exact hm kv' hkv'
    · intro kv hkv
      rcases List.mem_append.mp hkv with h | h
      · exact hm kv h
      · simp at h
        subst h
        simp

/-! ## Facts about entries of the built lookup -/

theorem mem_buildPrefixLookup {env : Env} {samples : List Sample}
    {repeaters : List Repeater} {localHash : Option String} {p : String}
    {e : LookupEntry}
    (he : (p, e) ∈ buildPrefixLookup env samples repeaters localHash) :
    ∃ cands, (p, cands) ∈ stageScored env samples repeaters localHash ∧
      e = mkEntry p cands := by
  rw [buildPrefixLookup_eq] at he
  obtain ⟨kv, hkv, heq⟩ := List.mem_map.mp he
  obtain ⟨h1, h2⟩ := Prod.mk.injEq .. ▸ heq
  subst h1
  exact ⟨kv.2, hkv, h2.symm⟩

theorem stageScored_mem {env : Env} {samples : List Sample}
    {repeaters : List Repeater} {localHash : Option String} {p : String}
    {cands : List Candidate}
    (h : (p, cands) ∈ stageScored env samples repeaters localHash) :
    ∃ l, (p, l) ∈ stageAfterSamples env samples repeaters localHash ∧
      cands = l.map
        (scoreCandidate
          (maxAppearancesOf (stageAfterSamples env samples repeaters localHash))
          (maxAdjacentOf (stageAfterSamples env samples repeaters localHash))) := by
  unfold stageScored at h
  obtain ⟨kv, hkv, heq⟩ := List.mem_map.mp h
  obtain ⟨h1, h2⟩ := Prod.mk.injEq .. ▸ heq
  subst h1
  exact ⟨kv.2, hkv, h2.symm⟩

theorem stageScored_hashes {env : Env} {samples : List Sample}
    {repeaters : List Repeater} {localHash : Option String} {p : String}
    {cands : List Candidate}
    (h : (p, cands) ∈ stageScored env samples repeaters localHash) :
    cands ≠ [] ∧ ∀ c ∈ cands, c.hash = p := by
  have hmem : (p, cands.map (·.hash)) ∈
      candShape (stageScored env samples repeaters localHash) := by
    unfold candShape
    exact List.mem_map.mpr ⟨(p, cands), h, rfl⟩
  rw [candShape_stageScored, candShape_stageAfterSamples] at hmem
  obtain ⟨kv, hkv, heq⟩ := List.mem_map.mp hmem
  obtain ⟨h1, h2⟩ := Prod.mk.injEq .. ▸ heq
  have hne := groupRepeaters_values_nonempty env.now repeaters kv hkv
  constructor
  · intro hnil
    rw [hnil] at h2
    simp only [List.map_nil, List.map_eq_nil_iff] at h2
    exact hne h2
  · intro c hc
    have : c.hash ∈ cands.map (·.hash) := List.mem_map_of_mem _ hc
    rw [← h2] at this
    obtain ⟨x, _, hx⟩ := List.mem_map.mp this
    rw [← hx, h1]

/-- **C1.** For every entry produced by `buildPrefixLookup`: a single
candidate gives confidence exactly 1 and `isUnambiguous`; two or more
candidates give exactly the spec's confidence formula
(`claimConfidence`) over the top two candidates of the stored
(score-descending) candidate list; and the stored confidence always lies in
`[0, 1]`. -/
theorem buildPrefixLookup_confidence (env : Env) (samples : List Sample)
    (repeaters : List Repeater) (localHash : Option String) (p : String)
    (e : LookupEntry)
    (he : (p, e) ∈ buildPrefixLookup env samples repeaters localHash) :
    (e.isUnambiguous = true ↔ e.candidates.length = 1)
    ∧ (e.candidates.length = 1 → e.confidence = 1)
    ∧ (2 ≤ e.candidates.length → e.confidence = claimConfidence e.candidates)
    ∧ 0 ≤ e.confidence ∧ e.confidence ≤ 1 := by
  obtain ⟨cands, _, rfl⟩ := mem_buildPrefixLookup he
  refine ⟨?_, ?_, ?_, ?_⟩
  · rw [mkEntry_isUnambiguous, mkEntry_candidates]
    simp
  · exact mkEntry_confidence_single p cands
  · exact mkEntry_confidence_multi p cands
  · exact mkEntry_confidence_bounds p cands

/-- The closed-form combined score of a scored candidate, in terms of its own
stored fields. -/
theorem scoreCandidate_combined (maxApp maxAdj : ℕ) (c : Candidate) :
    (scoreCandidate maxApp maxAdj c).combinedScore =
      0.15 * (scoreCandidate maxApp maxAdj c).positionScore +
      0.15 * (scoreCandidate maxApp maxAdj c).cooccurrenceScore +
      0.40 * (scoreCandidate maxApp maxAdj c).geographicScore +
      0.30 * (scoreCandidate maxApp maxAdj c).recencyScore +
      (if 0 < (scoreCandidate maxApp maxAdj c).srcGeoEvidenceCount then
        ((scoreCandidate maxApp maxAdj c).srcGeoEvidenceScore /
            ((scoreCandidate maxApp maxAdj c).srcGeoEvidenceCount : ℚ)) *
          min (((scoreCandidate maxApp maxAdj c).srcGeoEvidenceCount : ℚ) / 50) 1
          * 0.3
      else 0) := by
  unfold scoreCandidate
  dsimp only
  simp only [SCORE_WEIGHTS]
  split_ifs <;> dsimp only <;> ring

/-- **C3.** Every candidate stored in the built lookup carries a combined
score equal to `0.15 × position + 0.15 × co-occurrence + 0.40 × geographic +
0.30 × recency`, plus, exactly when the candidate's source-geographic
evidence count is positive, the additive boost
`(evidence sum / evidence count) × min(evidence count / 50, 1) × 0.3`; no
clamping is applied to the combined score. -/
theorem combinedScore_formula (env : Env) (samples : List Sample)
    (repeaters : List Repeater) (localHash : Option String) (p : String)
    (e : LookupEntry)
    (he : (p, e) ∈ buildPrefixLookup env samples repeaters localHash) :
    ∀ c ∈ e.candidates, c.combinedScore =
      0.15 * c.positionScore + 0.15 * c.cooccurrenceScore +
      0.40 * c.geographicScore + 0.30 * c.recencyScore +
      (if 0 < c.srcGeoEvidenceCount then
        (c.srcGeoEvidenceScore / (c.srcGeoEvidenceCount : ℚ)) *
          min ((c.srcGeoEvidenceCount : ℚ) / 50) 1 * 0.3
      else 0) := by
  obtain ⟨cands, hcands, rfl⟩ := mem_buildPrefixLookup he
  obtain ⟨l, _, rfl⟩ := stageScored_mem hcands
  intro c hc
  rw [mkEntry_candidates] at hc
  rw [sortDesc_mem] at hc
  obtain ⟨c₀, _, rfl⟩ := List.mem_map.mp hc
  exact scoreCandidate_combined _ _ c₀

theorem buildPrefixLookup_entry {env : Env} {samples : List Sample}
    {repeaters : List Repeater} {localHash : Option String} {p : String}
    {e : LookupEntry}
    (he : (p, e) ∈ buildPrefixLookup env samples repeaters localHash) :
    e.candidates ≠ [] ∧ e.bestMatch = some p ∧ ∀ c ∈ e.candidates, c.hash = p := by
  obtain ⟨cands, hcands, rfl⟩ := mem_buildPrefixLookup he
  obtain ⟨hne, hhash⟩ := stageScored_hashes hcands
  have hnes : sortDesc cands ≠ [] := by
    intro h0
    have hperm := sortDesc_perm cands
    rw [h0] at hperm
    exact hne hperm.nil_eq.symm
  refine ⟨by rw [mkEntry_candidates]; exact hnes, ?_, ?_⟩
  · rw [mkEntry_bestMatch]
    rcases hs : sortDesc cands with _ | ⟨a, t⟩
    · exact absurd hs hnes
    · have ha : a ∈ cands := sortDesc_mem.mp (hs ▸ List.mem_cons_self a t)
      simp only [List.head?_cons, Option.map_some']
      rw [hhash a ha]
  · intro c hc
    rw [mkEntry_candidates, sortDesc_mem] at hc
    exact hhash c hc

theorem resolvePrefix_known (env : Env) (samples : List Sample)
    (repeaters : List Repeater) (localHash : Option String) (q : String)
    (e : LookupEntry)
    (hfind : assocFind (buildPrefixLookup env samples repeaters localHash)
      (jsToUpper q) = some e) :
    resolvePrefix (buildPrefixLookup env samples repeaters localHash) q =
      ⟨some (jsToUpper q), e.confidence⟩ := by
  obtain ⟨hne, hbm, -⟩ := buildPrefixLookup_entry (assocFind_mem hfind)
  unfold resolvePrefix
  dsimp only
  rw [hfind]
  dsimp only
  rw [if_neg (by simpa [List.isEmpty_iff] using hne), hbm]

theorem resolveElem_cases (env : Env) (samples : List Sample)
    (repeaters : List Repeater) (localHash : Option String) (x : String) :
    resolveElem (buildPrefixLookup env samples repeaters localHash) x =
      jsToUpper x ∨
    resolveElem (buildPrefixLookup env samples repeaters localHash) x = x := by
  rcases hfind : assocFind (buildPrefixLookup env samples repeaters localHash)
      (jsToUpper x) with _ | e
  · right
    unfold resolveElem resolvePrefix
    dsimp only
    rw [hfind]
  · have hres := resolvePrefix_known env samples repeaters localHash x e hfind
    unfold resolveElem
    rw [hres]
    dsimp only
    by_cases hup : jsToUpper x = ""
    · right; rw [if_pos hup]
    · left; rw [if_neg hup]

/-- **C10.** Every stored lookup entry has a non-empty candidate list, every
stored candidate's `hash` is the entry's own uppercase 2-character key, and
`bestMatch` is that key itself; hence resolving any known prefix returns the
uppercased prefix as the "identity" (never a distinct full identifier), and
each element of a disambiguated path equals either the uppercased input
element or the input element unchanged. -/
theorem lookup_bestMatch_invariant (env : Env) (samples : List Sample)
    (repeaters : List Repeater) (localHash : Option String) :
    (∀ p e, (p, e) ∈ buildPrefixLookup env samples repeaters localHash →
      e.candidates ≠ [] ∧ e.bestMatch = some p ∧ ∀ c ∈ e.candidates, c.hash = p)
    ∧ (∀ q e,
        assocFind (buildPrefixLookup env samples repeaters localHash)
          (jsToUpper q) = some e →
        resolvePrefix (buildPrefixLookup env samples repeaters localHash) q =
          ⟨some (jsToUpper q), e.confidence⟩)
    ∧ (∀ (l : List String) (i : ℕ), i < l.length →
        (disambiguateList (buildPrefixLookup env samples repeaters localHash)
            l).getD i "" = jsToUpper (l.getD i "") ∨
        (disambiguateList (buildPrefixLookup env samples repeaters localHash)
            l).getD i "" = l.getD i "") := by
  refine ⟨fun p e he => buildPrefixLookup_entry he,
    fun q e hf => resolvePrefix_known env samples repeaters localHash q e hf,
    ?_⟩
  intro l i hi
  have hmap : (disambiguateList
      (buildPrefixLookup env samples repeaters localHash) l).getD i "" =
      resolveElem (buildPrefixLookup env samples repeaters localHash)
        (l.getD i "") := by
    unfold disambiguateList
    rw [List.getD_eq_getElem?_getD, List.getElem?_map,
      List.getD_eq_getElem?_getD, List.getElem?_eq_getElem hi]
    rfl
  rw [hmap]
  exact resolveElem_cases env samples repeaters localHash (l.getD i "")

/-! ## Characterization of the age/validity filter (step 1) -/

/-- The admission test of the grouping loop: valid 2-character prefix and not
older than the maximum candidate age. -/
def keepRep (now : ℤ) (r : Repeater) : Bool :=
  if repeaterPrefix r = "" ∨ (repeaterPrefix r).length ≠ 2 then false
  else !isCandidateTooOld (repLastSeen r.time) now

/-- The `RepInfo` record created for an admitted repeater. -/
def repInfoOf (r : Repeater) : RepInfo :=
  ⟨repeaterPrefix r, r.lat, r.lon, repLastSeen r.time, r.name⟩

theorem groupStep_eq (now : ℤ) (m : List (String × List RepInfo))
    (r : Repeater) :
    groupStep now m r =
      if keepRep now r then assocPush m (repeaterPrefix r) (repInfoOf r)
      else m := by
  unfold groupStep keepRep repInfoOf
  dsimp only
  by_cases h1 : repeaterPrefix r = "" ∨ (repeaterPrefix r).length ≠ 2
  · simp [h1]
  · by_cases h2 : isCandidateTooOld (repLastSeen r.time) now
    · simp [h1, h2]
    · simp [h1, h2]

/-- Combination of an accumulated optional candidate list with newly filtered
repeaters (absent stays absent only when nothing is added). -/
def optExtend (o : Option (List RepInfo)) (l : List RepInfo) :
    Option (List RepInfo) :=
  match o, l with
  | some xs, l => some (xs ++ l)
  | none, [] => none
  | none, l => some l

theorem assocFind_groupFold (now : ℤ) (reps : List Repeater)
    (m : List (String × List RepInfo)) (P : String) :
    assocFind (reps.foldl (groupStep now) m) P =
      optExtend (assocFind m P)
        ((reps.filter
          (fun r => keepRep now r && repeaterPrefix r = P)).map repInfoOf) := by
  induction reps generalizing m with
  | nil =>
    rcases h : assocFind m P with _ | xs <;> simp [optExtend, h]
  | cons r rs ih =>
    rw [List.foldl_cons, ih, groupStep_eq]
    by_cases hk : keepRep now r
    · by_cases hp : repeaterPrefix r = P
      · rw [if_pos hk]
        rw [List.filter_cons_of_pos (by simp [hk, hp])]
        rw [assocFind_assocPush, if_pos hp.symm, hp]
        rcases ho : assocFind m P with _ | xs <;>
          simp [optExtend, List.map_cons]
      · rw [if_pos hk]
        rw [List.filter_cons_of_neg (by simp [hp])]
        rw [assocFind_assocPush, if_neg (fun hh => hp hh.symm)]
    · rw [if_neg hk]
      rw [List.filter_cons_of_neg (by simp [hk])]

theorem assocFind_mapVal (m : List (String × α)) (g : String → α → β)
    (k : String) :
    assocFind (m.map (fun kv => (kv.1, g kv.1 kv.2))) k =
      (assocFind m k).map (g k) := by
  induction m with
  | nil => rfl
  | cons kv m ih =>
    by_cases h : kv.1 = k
    · subst h
      simp [assocFind_cons]
    · simp [assocFind_cons, h, ih]

/-- Per-key candidate-list lengths survive the sample pass and scoring. -/
theorem assocFind_length_stageAfter (env : Env) (samples : List Sample)
    (repeaters : List Repeater) (localHash : Option String) (P : String) :
    (assocFind (stageAfterSamples env samples repeaters localHash) P).map
        List.length =
      (assocFind (groupRepeaters env.now repeaters) P).map List.length := by
  have hshape := candShape_stageAfterSamples env samples repeaters localHash
  have h1 : assocFind (candShape
      (stageAfterSamples env samples repeaters localHash)) P =
      (assocFind (stageAfterSamples env samples repeaters localHash) P).map
        (fun l => l.map (·.hash)) := by
    unfold candShape
    exact assocFind_mapVal _
      (fun _ (l : List Candidate) => l.map (fun c => c.hash)) P
  have h2 : assocFind ((groupRepeaters env.now repeaters).map
      (fun kv => (kv.1, kv.2.map (fun _ => kv.1)))) P =
      (assocFind (groupRepeaters env.now repeaters) P).map
        (fun l => l.map (fun _ => P)) := by
    have := assocFind_mapVal (groupRepeaters env.now repeaters)
      (fun k l => l.map (fun _ => k)) P
    exact this
  have h3 := h1.symm.trans ((congrArg (fun m => assocFind m P) hshape).trans h2)
  have h4 := congrArg (Option.map List.length) h3
  rw [Option.map_map, Option.map_map] at h4
  have h5 : ∀ (o : Option (List Candidate)) (f : Candidate → String),
      o.map (List.length ∘ fun l => l.map f) = o.map List.length := by
    intro o f
    cases o <;> simp
  have h6 : ∀ (o : Option (List RepInfo)) (f : RepInfo → String),
      o.map (List.length ∘ fun l => l.map f) = o.map List.length := by
    intro o f
    cases o <;> simp
  rw [h5 _ (·.hash)] at h4
  rw [h6 _ (fun _ => P)] at h4
  exact h4

/-- Per-key candidate counts in the final lookup equal the per-key counts of
admitted repeaters. -/
theorem buildPrefixLookup_counts (env : Env) (samples : List Sample)
    (repeaters : List Repeater) (localHash : Option String) (P : String) :
    (assocFind (buildPrefixLookup env samples repeaters localHash) P).map
        (fun e => e.candidates.length) =
      (assocFind (groupRepeaters env.now repeaters) P).map List.length := by
  rw [buildPrefixLookup_eq]
  rw [assocFind_mapVal (stageScored env samples repeaters localHash)
    (fun k v => mkEntry k v) P]
  rw [Option.map_map]
  have h1 : assocFind (stageScored env samples repeaters localHash) P =
      (assocFind (stageAfterSamples env samples repeaters localHash) P).map
        (List.map (scoreCandidate
          (maxAppearancesOf (stageAfterSamples env samples repeaters localHash))
          (maxAdjacentOf (stageAfterSamples env samples repeaters localHash)))) := by
    unfold stageScored
    dsimp only
    exact assocFind_mapVal _
      (fun _ (l : List Candidate) => l.map (scoreCandidate
        (maxAppearancesOf (stageAfterSamples env samples repeaters localHash))
        (maxAdjacentOf (stageAfterSamples env samples repeaters localHash)))) P
  rw [h1, Option.map_map]
  have h2 : ((fun e => e.candidates.length) ∘ fun v => mkEntry P v) ∘
      List.map (scoreCandidate
        (maxAppearancesOf (stageAfterSamples env samples repeaters localHash))
        (maxAdjacentOf (stageAfterSamples env samples repeaters localHash))) =
      List.length := by
    funext l
    simp [Function.comp, mkEntry_candidates, sortDesc_length]
  rw [h2]
  exact assocFind_length_stageAfter env samples repeaters localHash P

/-- **C5.** For any 2-character prefix `P`, the number of candidates stored
for `P` equals the number of repeater observations with prefix `P` whose
last-seen time does not make them too old (with no entry at all when every
one is excluded); an observation is too old exactly when its last-seen time
is known (positive) and more than 336 hours before now, and a zero/unknown
last-seen time is never filtered. -/
theorem candidate_age_filter (env : Env) (samples : List Sample)
    (repeaters : List Repeater) (localHash : Option String) (P : String)
    (hP : P.length = 2) :
    ((assocFind (buildPrefixLookup env samples repeaters localHash) P).map
        (fun e => e.candidates.length) =
      if (repeaters.filter (fun r => repeaterPrefix r = P &&
            !isCandidateTooOld (repLastSeen r.time) env.now)).length = 0
      then none
      else some (repeaters.filter (fun r => repeaterPrefix r = P &&
            !isCandidateTooOld (repLastSeen r.time) env.now)).length)
    ∧ (∀ t : ℤ, isCandidateTooOld t env.now = true ↔
        0 < t ∧ 336 * 3600 < env.now - t)
    ∧ (∀ t : ℤ, t ≤ 0 → isCandidateTooOld t env.now = false) := by
  refine ⟨?_, ?_, ?_⟩
  · rw [buildPrefixLookup_counts]
    unfold groupRepeaters
    rw [assocFind_groupFold env.now repeaters [] P]
    rw [assocFind_nil]
    have hfilter : repeaters.filter
        (fun r => keepRep env.now r && repeaterPrefix r = P) =
        repeaters.filter (fun r => repeaterPrefix r = P &&
          !isCandidateTooOld (repLastSeen r.time) env.now) := by
      apply List.filter_congr
      intro r _
      by_cases hp : repeaterPrefix r = P
      · have hval : ¬ (repeaterPrefix r = "" ∨
            (repeaterPrefix r).length ≠ 2) := by
          rw [hp]
          push_neg
          constructor
          · intro h0
            rw [h0] at hP
            simp at hP
          · exact hP
        unfold keepRep
        rw [if_neg hval, hp]
        cases htoo : isCandidateTooOld (repLastSeen r.time) env.now <;> simp
      · simp [hp]
    rw [hfilter]
    rcases hl : repeaters.filter (fun r => repeaterPrefix r = P &&
        !isCandidateTooOld (repLastSeen r.time) env.now) with _ | ⟨x, xs⟩
    · simp [optExtend]
    · simp [optExtend]
  · intro t
    unfold isCandidateTooOld MAX_CANDIDATE_AGE_HOURS
    by_cases ht : t ≤ 0
    · simp only [if_pos ht]
      constructor
      · intro h
        cases h
      · intro ⟨h1, _⟩
        omega
    · simp only [if_neg ht, decide_eq_true_eq]
      push_neg at ht
      rw [gt_iff_lt, lt_div_iff₀ (by norm_num : (0 : ℚ) < 3600)]
      rw [show (336 : ℚ) * 3600 = ((336 * 3600 : ℤ) : ℚ) by norm_num]
      rw [Int.cast_lt]
      exact ⟨fun h => ⟨ht, h⟩, fun h => h.2⟩
  · intro t ht
    unfold isCandidateTooOld
    rw [if_pos ht]

/-- **C4.** The recency score is exactly `0.1` for a zero/unknown (or
negative) last-seen timestamp, `1.0` for a timestamp in the future of `now`,
and `exp(−hoursAgo / 12)` otherwise — in particular `exp 0` at zero hours ago
and `exp (−1)` at exactly twelve hours (43200 s) ago.  `rexp` is the
abstracted `Math.exp`. -/
theorem calculateRecencyScore_spec (rexp : ℚ → ℚ) (t now : ℤ) :
    (t ≤ 0 → calculateRecencyScore rexp t now = 0.1)
    ∧ (0 < t → now < t → calculateRecencyScore rexp t now = 1)
    ∧ (0 < t → t ≤ now →
        calculateRecencyScore rexp t now =
          rexp (-(((now - t : ℤ) : ℚ) / 3600) / 12))
    ∧ (0 < t → calculateRecencyScore rexp t t = rexp 0)
    ∧ (0 < t → calculateRecencyScore rexp t (t + 43200) = rexp (-1)) := by
  have hmain : ∀ m : ℤ, 0 < t → t ≤ m →
      calculateRecencyScore rexp t m = rexp (-(((m - t : ℤ) : ℚ) / 3600) / 12) := by
    intro m ht hm
    unfold calculateRecencyScore RECENCY_DECAY_HOURS
    rw [if_neg (by omega)]
    dsimp only
    rw [if_neg (not_lt.mpr (div_nonneg
      (by exact_mod_cast (by omega : (0 : ℤ) ≤ m - t)) (by norm_num)))]
  refine ⟨?_, ?_, fun ht hm => hmain now ht hm, ?_, ?_⟩
  · intro ht
    unfold calculateRecencyScore
    rw [if_pos ht]
  · intro ht hm
    unfold calculateRecencyScore
    rw [if_neg (by omega)]
    dsimp only
    have hneg : ((now - t : ℤ) : ℚ) < 0 := by
      exact_mod_cast (by omega : now - t < 0)
    rw [if_pos (div_neg_of_neg_of_pos hneg (by norm_num : (0 : ℚ) < 3600))]
  · intro ht
    rw [hmain t ht le_rfl]
    norm_num
  · intro ht
    rw [hmain (t + 43200) ht (by omega)]
    norm_num

/-- **C6.** `parsePath` returns `null` exactly on empty/absent input; on a
non-empty path it uppercases every element, strips the final element from the
effective path iff it equals the local identifier's 2-character prefix, and
records the effective length; the position of index `i` in an effective path
of length `L` is `L − i`, so the last element always has position 1. -/
theorem parsePath_spec (localHash : Option String) (p : List String)
    (i L : ℤ) :
    (parsePath none localHash = none ∧ parsePath (some []) localHash = none)
    ∧ (p ≠ [] → ∃ r, parsePath (some p) localHash = some r ∧
        r.original = p.map jsToUpper ∧
        r.effective =
          (if localHash.bind getHashPrefix ≠ none ∧
              r.original.getLast? = localHash.bind getHashPrefix
            then r.original.dropLast else r.original) ∧
        r.effectiveLength = r.effective.length)
    ∧ getPositionFromIndex i L = L - i
    ∧ getPositionFromIndex (L - 1) L = 1 := by
  refine ⟨⟨rfl, rfl⟩, ?_, rfl, by unfold getPositionFromIndex; ring⟩
  intro hp
  have hne : ¬ (p.isEmpty = true) := by simpa [List.isEmpty_iff] using hp
  simp only [parsePath, if_neg hne]
  refine ⟨_, rfl, rfl, ?_, rfl⟩
  dsimp only
  rcases hlp : localHash.bind getHashPrefix with _ | lp
  · simp
  · by_cases hlast : (p.map jsToUpper).getLast? = some lp
    · simp [hlast]
    · simp [hlast]

/-- **C9.** `resolvePrefix` is a case-insensitive (total, never-throwing)
lookup returning the null result `{hash: null, confidence: 0}` whenever the
uppercased prefix is not a key of the lookup or its entry holds no
candidates. -/
theorem resolvePrefix_unknown (lookup : List (String × LookupEntry))
    (p q : String) :
    (assocFind lookup (jsToUpper p) = none →
      resolvePrefix lookup p = ⟨none, 0⟩)
    ∧ (∀ e, assocFind lookup (jsToUpper p) = some e → e.candidates = [] →
        resolvePrefix lookup p = ⟨none, 0⟩)
    ∧ (jsToUpper p = jsToUpper q → resolvePrefix lookup p = resolvePrefix lookup q) := by
  refine ⟨?_, ?_, ?_⟩
  · intro h
    unfold resolvePrefix
    dsimp only
    rw [h]
  · intro e h hc
    unfold resolvePrefix
    dsimp only
    rw [h]
    dsimp only
    rw [if_pos (by simp [hc])]
  · intro h
    unfold resolvePrefix
    dsimp only
    rw [h]

/-- **C7.** `disambiguatePath` never changes the length of a path (and maps
`null` to `null`); each element resolves to the found identity (when the
resolved hash is non-null and non-empty) and stays unchanged otherwise; and
when every stored `bestMatch` resolves to itself (the fixed point reached by
`buildPrefixLookup` tables), applying `disambiguatePath` to its own output
returns that output unchanged. -/
theorem disambiguatePath_length_idempotent
    (lookup : List (String × LookupEntry)) (l : List String)
    (hfix : ∀ pe ∈ lookup, ∀ h, pe.2.bestMatch = some h →
      resolveElem lookup h = h) :
    (disambiguateList lookup l).length = l.length
    ∧ disambiguatePath lookup (some l) = some (disambiguateList lookup l)
    ∧ disambiguatePath lookup none = none
    ∧ (∀ x, (resolvePrefix lookup x).hash = none → resolveElem lookup x = x)
    ∧ (∀ x h, (resolvePrefix lookup x).hash = some h → h ≠ "" →
        resolveElem lookup x = h)
    ∧ disambiguateList lookup (disambiguateList lookup l) =
        disambiguateList lookup l := by
  have helem : ∀ x, resolveElem lookup (resolveElem lookup x) =
      resolveElem lookup x := by
    intro x
    rcases hfind : assocFind lookup (jsToUpper x) with _ | e
    · have hx : resolveElem lookup x = x := by
        unfold resolveElem resolvePrefix
        dsimp only
        rw [hfind]
      rw [hx, hx]
    · by_cases hemp : e.candidates.isEmpty
      · have hx : resolveElem lookup x = x := by
          unfold resolveElem resolvePrefix
          dsimp only
          rw [hfind]
          dsimp only
          rw [if_pos hemp]
        rw [hx, hx]
      · rcases hbm : e.bestMatch with _ | h
        · have hx : resolveElem lookup x = x := by
            unfold resolveElem resolvePrefix
            dsimp only
            rw [hfind]
            dsimp only
            rw [if_neg hemp, hbm]
          rw [hx, hx]
        · by_cases hh : h = ""
          · have hx : resolveElem lookup x = x := by
              unfold resolveElem resolvePrefix
              dsimp only
              rw [hfind]
              dsimp only
              rw [if_neg hemp, hbm]
              dsimp only
              rw [if_pos hh]
            rw [hx, hx]
          · have hx : resolveElem lookup x = h := by
              unfold resolveElem resolvePrefix
              dsimp only
              rw [hfind]
              dsimp only
              rw [if_neg hemp, hbm]
              dsimp only
              rw [if_neg hh]
            rw [hx]
            exact hfix _ (assocFind_mem hfind) h hbm
  refine ⟨by simp [disambiguateList], rfl, rfl, ?_, ?_, ?_⟩
  · intro x hx
    unfold resolveElem
    rw [hx]
  · intro x h hx hh
    unfold resolveElem
    rw [hx]
    dsimp only
    rw [if_neg hh]
  · unfold disambiguateList
    rw [List.map_map]
    apply List.map_congr_left
    intro x _
    exact helem x

/-- **C2 (amended).** Inside the sample pass, one occurrence of a candidate's
prefix adds source-geographic evidence exactly when the occurrence is at
position 1, more than one candidate shares the prefix, **and the candidate's
latitude and longitude are both present and nonzero** (JavaScript
truthiness); the evidence value is bucketed from the distance to the sample's
decoded location as `<500m: 1.0, <2000m: 0.8, <5000m: 0.5, <10000m: 0.3,
else 0.1`, and the evidence count rises by one per accumulating occurrence. -/
theorem srcGeoEvidence_accumulation (dist : ℚ → ℚ → ℚ → ℚ → ℚ)
    (srcLat srcLon : ℚ) (position : ℤ) (nCands : ℕ) (prev next : Option String)
    (c : Candidate) :
    ((updateCandOcc dist srcLat srcLon position nCands prev next
        c).srcGeoEvidenceCount =
      c.srcGeoEvidenceCount +
        (if position = 1 ∧ 1 < nCands ∧ truthy c.latitude = true ∧
            truthy c.longitude = true then 1 else 0))
    ∧ ((updateCandOcc dist srcLat srcLon position nCands prev next
        c).srcGeoEvidenceScore =
      c.srcGeoEvidenceScore +
        (if position = 1 ∧ 1 < nCands ∧ truthy c.latitude = true ∧
            truthy c.longitude = true then
          evidenceFor (dist srcLat srcLon (c.latitude.getD 0)
            (c.longitude.getD 0))
        else 0))
    ∧ (∀ d : ℚ, (d < 500 → evidenceFor d = 1)
        ∧ (500 ≤ d → d < 2000 → evidenceFor d = 0.8)
        ∧ (2000 ≤ d → d < 5000 → evidenceFor d = 0.5)
        ∧ (5000 ≤ d → d < 10000 → evidenceFor d = 0.3)
        ∧ (10000 ≤ d → evidenceFor d = 0.1)) := by
  refine ⟨?_, ?_, ?_⟩
  · unfold updateCandOcc
    cases prev <;> cases next <;> dsimp only <;> split_ifs <;> simp
  · unfold updateCandOcc
    cases prev <;> cases next <;> dsimp only <;> split_ifs <;> simp
  · intro d
    refine ⟨?_, ?_, ?_, ?_, ?_⟩ <;> intros <;> unfold evidenceFor <;>
      split_ifs <;> first | rfl | linarith

/-! ## Order-independence of the sample aggregation -/

theorem assocFind_aggStep (lookup : List (String × LookupEntry))
    (m : List (String × SampleAgg)) (s : Sample) (p : String) :
    assocFind (aggStep lookup m s) p =
      if s.name.take 6 = p then
        some (sampleStep lookup ((assocFind m p).getD initAgg) s)
      else assocFind m p := by
  unfold aggStep
  dsimp only
  rcases h : assocFind m (s.name.take 6) with _ | agg
  · rw [assocFind_append_single]
    by_cases hp : s.name.take 6 = p
    · rw [if_pos hp, if_pos hp, ← hp, h]
      rfl
    · rw [if_neg hp, if_neg hp]
      exact Option.or_none
  · rw [assocFind_updateVal]
    by_cases hp : s.name.take 6 = p
    · rw [if_pos hp.symm, if_pos hp, ← hp, h]
      rfl
    · rw [if_neg (fun hh => hp hh.symm), if_neg hp]

/-- The per-tile fold on an optional aggregate (what the `Map` holds at a
fixed key). -/
def optStep (lookup : List (String × LookupEntry)) (o : Option SampleAgg)
    (s : Sample) : Option SampleAgg :=
  some (sampleStep lookup (o.getD initAgg) s)

theorem assocFind_aggFold (lookup : List (String × LookupEntry))
    (samples : List Sample) (m : List (String × SampleAgg)) (p : String) :
    assocFind (samples.foldl (aggStep lookup) m) p =
      (samples.filter (fun s => s.name.take 6 = p)).foldl (optStep lookup)
        (assocFind m p) := by
  induction samples generalizing m with
  | nil => rfl
  | cons s ss ih =>
    rw [List.foldl_cons, ih, assocFind_aggStep]
    by_cases hp : s.name.take 6 = p
    · rw [if_pos hp, List.filter_cons_of_pos (by simp [hp]), List.foldl_cons]
      rfl
    · rw [if_neg hp, List.filter_cons_of_neg (by simp [hp])]

/-- The order-independent view of one aggregate: total, observed, heard
counts, latest timestamp, and max snr/rssi (everything the claim compares;
the insertion-ordered repeater set is excluded). -/
def aggView (a : SampleAgg) : ℕ × ℕ × ℕ × ℤ × Option ℚ × Option ℚ :=
  (a.total, a.observed, a.heard, a.lastTime, a.snr, a.rssi)

/-- The action of one sample on the view. -/
def viewStep (lookup : List (String × LookupEntry)) :
    ℕ × ℕ × ℕ × ℤ × Option ℚ × Option ℚ → Sample →
      ℕ × ℕ × ℕ × ℤ × Option ℚ × Option ℚ
  | (total, observed, heard, lastTime, snr, rssi), s =>
    let path := disambiguateList lookup (s.path.getD [])
    let heardB : Bool := !path.isEmpty
    let observedB : Bool := s.observed.getD heardB
    let time : ℤ := s.time.getD 0
    (total + 1,
     if observedB then observed + 1 else observed,
     if heardB then heard + 1 else heard,
     if time > lastTime then time else lastTime,
     (match s.snr with
      | none => snr
      | some v => some (match snr with | none => v | some w => max w v)),
     (match s.rssi with
      | none => rssi
      | some v => some (match rssi with | none => v | some w => max w v)))

theorem aggView_sampleStep (lookup : List (String × LookupEntry))
    (a : SampleAgg) (s : Sample) :
    aggView (sampleStep lookup a s) = viewStep lookup (aggView a) s := rfl

theorem viewStep_rcomm (lookup : List (String × LookupEntry))
    (t : ℕ × ℕ × ℕ × ℤ × Option ℚ × Option ℚ) (s₁ s₂ : Sample) :
    viewStep lookup (viewStep lookup t s₁) s₂ =
      viewStep lookup (viewStep lookup t s₂) s₁ := by
  obtain ⟨a, b, c, d, e, f⟩ := t
  unfold viewStep
  dsimp only
  simp only [Prod.mk.injEq, true_and]
  refine ⟨?_, ?_, ?_, ?_, ?_⟩
  · by_cases h1 : (s₁.observed.getD
        (!(disambiguateList lookup (s₁.path.getD [])).isEmpty)) <;>
    by_cases h2 : (s₂.observed.getD
        (!(disambiguateList lookup (s₂.path.getD [])).isEmpty)) <;>
      simp [h1, h2]
  · by_cases h1 : (!(disambiguateList lookup (s₁.path.getD [])).isEmpty) <;>
    by_cases h2 : (!(disambiguateList lookup (s₂.path.getD [])).isEmpty) <;>
      simp [h1, h2]
  · split_ifs <;> omega
  · rcases s₁.snr with _ | v₁ <;> rcases s₂.snr with _ | v₂ <;>
      rcases e with _ | w <;>
      simp [max_comm, max_left_comm]
  · rcases s₁.rssi with _ | v₁ <;> rcases s₂.rssi with _ | v₂ <;>
      rcases f with _ | w <;>
      simp [max_comm, max_left_comm]

/-- The view of the tile fold. -/
def viewOptStep (lookup : List (String × LookupEntry))
    (o : Option (ℕ × ℕ × ℕ × ℤ × Option ℚ × Option ℚ)) (s : Sample) :
    Option (ℕ × ℕ × ℕ × ℤ × Option ℚ × Option ℚ) :=
  some (viewStep lookup (o.getD (aggView initAgg)) s)

theorem viewOptStep_rcomm (lookup : List (String × LookupEntry))
    (o : Option (ℕ × ℕ × ℕ × ℤ × Option ℚ × Option ℚ)) (s₁ s₂ : Sample) :
    viewOptStep lookup (viewOptStep lookup o s₁) s₂ =
      viewOptStep lookup (viewOptStep lookup o s₂) s₁ := by
  unfold viewOptStep
  dsimp only [Option.getD_some]
  rw [viewStep_rcomm]

theorem map_aggView_foldl (lookup : List (String × LookupEntry))
    (l : List Sample) (o : Option SampleAgg) :
    (l.foldl (optStep lookup) o).map aggView =
      l.foldl (viewOptStep lookup) (o.map aggView) := by
  induction l generalizing o with
  | nil => rfl
  | cons s ss ih =>
    rw [List.foldl_cons, List.foldl_cons, ih]
    refine congrArg (fun z => List.foldl (viewOptStep lookup) z ss) ?_
    unfold optStep viewOptStep
    rw [Option.map_some', aggView_sampleStep]
    refine congrArg (fun z => some (viewStep lookup z s)) ?_
    cases o <;> rfl

theorem sampleStep_counts (lookup : List (String × LookupEntry))
    (a : SampleAgg) (s : Sample)
    (h : a.heard ≤ a.total ∧ a.observed ≤ a.total) :
    (sampleStep lookup a s).heard ≤ (sampleStep lookup a s).total ∧
    (sampleStep lookup a s).observed ≤ (sampleStep lookup a s).total := by
  obtain ⟨h1, h2⟩ := h
  unfold sampleStep
  dsimp only
  constructor <;> split_ifs <;> omega

theorem aggregate_counts (lookup : List (String × LookupEntry))
    (samples : List Sample) :
    ∀ pa ∈ aggregateSamples lookup samples,
      pa.2.heard ≤ pa.2.total ∧ pa.2.observed ≤ pa.2.total := by
  unfold aggregateSamples
  suffices h : ∀ (m : List (String × SampleAgg)),
      (∀ pa ∈ m, pa.2.heard ≤ pa.2.total ∧ pa.2.observed ≤ pa.2.total) →
      ∀ pa ∈ samples.foldl (aggStep lookup) m,
        pa.2.heard ≤ pa.2.total ∧ pa.2.observed ≤ pa.2.total by
    exact h [] (by simp)
  induction samples with
  | nil => intro m hm; simpa using hm
  | cons s ss ih =>
    intro m hm
    rw [List.foldl_cons]
    apply ih
    unfold aggStep
    dsimp only
    rcases hfind : assocFind m (s.name.take 6) with _ | agg
    · intro pa hpa
      rcases List.mem_append.mp hpa with h | h
      · exact hm pa h
      · simp at h
        subst h
        exact sampleStep_counts lookup initAgg s (by simp [initAgg])
    · intro pa hpa
      unfold updateVal at hpa
      obtain ⟨kv, hkv, heq⟩ := List.mem_map.mp hpa
      by_cases hk : kv.1 = s.name.take 6
      · rw [if_pos hk] at heq
        subst heq
        exact sampleStep_counts lookup agg s (hm _ (assocFind_mem hfind))
      · rw [if_neg hk] at heq
        subst heq
        exact hm kv hkv

/-- **C8.** The `/get-nodes` sample aggregation is an order-independent fold:
permuting the sample list leaves every tile's total/observed/heard counts,
latest timestamp, and max snr/rssi unchanged; and in every aggregate the
reported `lost` equals total minus heard (with heard and observed never
exceeding total). -/
theorem aggregation_perm_invariant (lookup : List (String × LookupEntry))
    (l₁ l₂ : List Sample) (hperm : List.Perm l₁ l₂) :
    (∀ p, (assocFind (aggregateSamples lookup l₁) p).map aggView =
      (assocFind (aggregateSamples lookup l₂) p).map aggView)
    ∧ (∀ pa ∈ aggregateSamples lookup l₁,
        pa.2.heard ≤ pa.2.total ∧ pa.2.observed ≤ pa.2.total ∧
        (mkAggItem pa.1 pa.2).lost = (pa.2.total : ℤ) - (pa.2.heard : ℤ)) := by
  constructor
  · intro p
    unfold aggregateSamples
    rw [assocFind_aggFold, assocFind_aggFold, assocFind_nil,
      map_aggView_foldl, map_aggView_foldl]
    exact (hperm.filter _).foldl_eq'
      (fun x _ y _ z => viewOptStep_rcomm lookup z x y) _
  · intro pa hpa
    obtain ⟨h1, h2⟩ := aggregate_counts lookup l₁ pa hpa
    exact ⟨h1, h2, rfl⟩

/-! ## Concrete instances -/

/-- A concrete environment: `rexp` and `dist` are arbitrary sample values of
the abstracted library functions, `decode` decodes every geohash to a fixed
position, and `now` is a fixed epoch second. -/
def wEnv : Env :=
  { rexp := fun _ => 1 / 2, dist := fun _ _ _ _ => 100,
    decode := fun _ => some (37, -121), now := 1000000000 }

def wRepA : Repeater :=
  ⟨some "aa", some 1, some 1, some 1000000000000, none⟩

/-- A repeater located at latitude/longitude `(0, 0)`. -/
def wRepB : Repeater :=
  ⟨some "AA", some 0, some 0, some 1000000000000, none⟩

def wSampleA : Sample := ⟨"9q9p1111", some ["AA"], some 5, some 5, none, none⟩

def wSampleB : Sample :=
  ⟨"9q9p1111", some ["AA"], some 7, some 3, none, some true⟩

def wLookup1 : List (String × LookupEntry) :=
  buildPrefixLookup wEnv [] [wRepA] none

def wEntry1 : LookupEntry := (assocFind wLookup1 "AA").getD (mkEntry "AA" [])

def wCand1 : Candidate :=
  wEntry1.candidates.getD 0
    (mkCandidate (fun _ => 1 / 2) 0 "ZZ" ⟨"ZZ", none, none, 0, none⟩)

def cexLookup : List (String × LookupEntry) :=
  buildPrefixLookup wEnv [wSampleA] [wRepA, wRepB] none

def wGeoCand : Candidate :=
  mkCandidate (fun _ => 1 / 2) 1000000000 "AA" ⟨"AA", some 1, some 1, 1000000000, none⟩

def wEmptyEntry : LookupEntry := ⟨"QQ", [], none, 0, false⟩

def wEmptyLookup : List (String × LookupEntry) := [("QQ", wEmptyEntry)]

/-! ## Witnesses -/

/-- The single entry of `wLookup1` is `("AA", wEntry1)` (established through
shallow projections, as the full record comparison is expensive). -/
theorem wEntry1_mem : ("AA", wEntry1) ∈ wLookup1 := by
  have hlen : wLookup1.length = 1 := by with_unfolding_all decide
  obtain ⟨kv, hW⟩ := List.length_eq_one.mp hlen
  have hkey : kv.1 = "AA" := by
    have h1 : wLookup1.head?.map Prod.fst = some "AA" := by
      with_unfolding_all decide
    rw [hW] at h1
    simpa using h1
  have hE : wEntry1 = kv.2 := by
    show (assocFind wLookup1 "AA").getD (mkEntry "AA" []) = kv.2
    rw [hW, assocFind_cons, if_pos hkey]
    rfl
  rw [hW, hE, ← hkey]
  exact List.mem_singleton.mpr rfl

/-- Witness for the confidence specification on a one-candidate lookup. -/
theorem buildPrefixLookup_confidence_witness :
    wEntry1.confidence = 1 ∧ wEntry1.isUnambiguous = true ∧
    0 ≤ wEntry1.confidence ∧ wEntry1.confidence ≤ 1 := by
  have h := buildPrefixLookup_confidence wEnv [] [wRepA] none "AA" wEntry1
    wEntry1_mem
  exact ⟨h.2.1 (by with_unfolding_all decide),
    h.1.mpr (by with_unfolding_all decide), h.2.2.2⟩

/-- **C2 (counterexample).** Two repeaters share prefix `"AA"`; one of them
sits at latitude/longitude `(0, 0)` — a well-defined location that is
JavaScript-falsy — and one sample has effective path `["AA"]`.  Both
candidates record the position-1 occurrence (first position bucket 1) with 2
candidates sharing the prefix, yet the `(0, 0)` candidate's source-geographic
evidence count stays `0`: evidence does *not* accumulate "exactly when" the
occurrence is at position 1 with more than one candidate. -/
theorem srcGeoEvidence_truthy_counterexample :
    (assocFind cexLookup "AA").map (fun e => e.candidates.length) = some 2 ∧
    (assocFind cexLookup "AA").map
      (fun e => e.candidates.map (fun c => c.positionCounts.getD 0 0)) =
      some [1, 1] ∧
    (assocFind cexLookup "AA").map
      (fun e => e.candidates.map (fun c => c.latitude)) =
      some [some 1, some 0] ∧
    (assocFind cexLookup "AA").map
      (fun e => e.candidates.map (fun c => c.srcGeoEvidenceCount)) =
      some [1, 0] := by
  refine ⟨by with_unfolding_all decide, by with_unfolding_all decide,
    by with_unfolding_all decide, by with_unfolding_all decide⟩

/-- Witness for the amended evidence-accumulation rule and the distance
buckets at the spec's sample distances. -/
theorem srcGeoEvidence_accumulation_witness :
    (updateCandOcc (fun _ _ _ _ => 100) 0 0 1 2 none none
      wGeoCand).srcGeoEvidenceCount = wGeoCand.srcGeoEvidenceCount + 1 ∧
    evidenceFor 400 = 1 ∧ evidenceFor 1900 = 0.8 ∧ evidenceFor 4000 = 0.5 ∧
    evidenceFor 9000 = 0.3 ∧ evidenceFor 15000 = 0.1 := by
  have h := srcGeoEvidence_accumulation (fun _ _ _ _ => 100) 0 0 1 2 none none
    wGeoCand
  refine ⟨h.1.trans (by with_unfolding_all decide),
    (h.2.2 400).1 (by norm_num),
    (h.2.2 1900).2.1 (by norm_num) (by norm_num),
    (h.2.2 4000).2.2.1 (by norm_num) (by norm_num),
    (h.2.2 9000).2.2.2.1 (by norm_num) (by norm_num),
    (h.2.2 15000).2.2.2.2 (by norm_num)⟩

/-- Witness for the combined-score formula on a concrete stored candidate. -/
theorem combinedScore_formula_witness :
    wCand1.combinedScore =
      0.15 * wCand1.positionScore + 0.15 * wCand1.cooccurrenceScore +
      0.40 * wCand1.geographicScore + 0.30 * wCand1.recencyScore +
      (if 0 < wCand1.srcGeoEvidenceCount then
        (wCand1.srcGeoEvidenceScore / (wCand1.srcGeoEvidenceCount : ℚ)) *
          min ((wCand1.srcGeoEvidenceCount : ℚ) / 50) 1 * 0.3
      else 0) := by
  have hmem : wCand1 ∈ wEntry1.candidates := by
    have hlen : wEntry1.candidates.length = 1 := by with_unfolding_all decide
    rcases hc : wEntry1.candidates with _ | ⟨c, t⟩
    · rw [hc] at hlen
      simp at hlen
    · have h0 : wEntry1.candidates.getD 0
          (mkCandidate (fun _ => 1 / 2) 0 "ZZ" ⟨"ZZ", none, none, 0, none⟩) =
          wCand1 := rfl
      rw [hc] at h0
      simp only [List.getD_cons_zero] at h0
      rw [← h0]
      exact List.mem_cons_self c t
  exact combinedScore_formula wEnv [] [wRepA] none "AA" wEntry1 wEntry1_mem
    wCand1 hmem

/-- Witness for the recency scoring at unknown, future, and 12-hours-ago
timestamps (`rexp` instantiated with the identity to expose the argument). -/
theorem calculateRecencyScore_spec_witness :
    calculateRecencyScore (fun x => x) 0 1000 = 0.1 ∧
    calculateRecencyScore (fun x => x) 1000 500 = 1 ∧
    calculateRecencyScore (fun x => x) 1000 (1000 + 43200) = -1 := by
  refine ⟨(calculateRecencyScore_spec (fun x => x) 0 1000).1 (by decide),
    (calculateRecencyScore_spec (fun x => x) 1000 500).2.1 (by decide) (by decide),
    ((calculateRecencyScore_spec (fun x => x) 1000 1000).2.2.2.2 (by decide))⟩

/-- Witness for the age filter: a repeater last seen 400 hours ago is
excluded, one last seen 100 hours ago is kept, and a zero timestamp is never
filtered. -/
theorem candidate_age_filter_witness :
    (assocFind (buildPrefixLookup wEnv []
        [⟨some "AA", some 2, some 2, some ((1000000000 - 400 * 3600) * 1000), none⟩,
         ⟨some "AA", some 3, some 3, some ((1000000000 - 100 * 3600) * 1000), none⟩]
        none) "AA").map (fun e => e.candidates.length) = some 1 ∧
    isCandidateTooOld (1000000000 - 400 * 3600) 1000000000 = true ∧
    isCandidateTooOld (1000000000 - 100 * 3600) 1000000000 = false ∧
    isCandidateTooOld 0 1000000000 = false := by
  have h := candidate_age_filter wEnv []
    [⟨some "AA", some 2, some 2, some ((1000000000 - 400 * 3600) * 1000), none⟩,
     ⟨some "AA", some 3, some 3, some ((1000000000 - 100 * 3600) * 1000), none⟩]
    none "AA" (by decide)
  refine ⟨h.1.trans (by with_unfolding_all decide),
    (h.2.1 (1000000000 - 400 * 3600)).mpr ⟨by decide, by decide⟩,
    ?_, h.2.2 0 (by decide)⟩
  have h2 := h.2.1 (1000000000 - 100 * 3600)
  rcases hb : isCandidateTooOld (1000000000 - 100 * 3600) 1000000000 with _ | _
  · rfl
  · have h3 := (h2.mp hb).2
    have hnow : wEnv.now = 1000000000 := rfl
    rw [hnow] at h3
    omega

/-- Witness for path parsing with a trailing self-hop stripped. -/
theorem parsePath_spec_witness :
    parsePath (some ["a1", "b2", "c3"]) (some "0xc3") =
      some ⟨["A1", "B2"], ["A1", "B2", "C3"], true, 2⟩ ∧
    getPositionFromIndex (3 - 1) 3 = 1 ∧
    parsePath (none : Option (List String)) (some "0xc3") = none := by
  have h := parsePath_spec (some "0xc3") ["a1", "b2", "c3"] 0 3
  obtain ⟨r, hr, -, -, -⟩ := h.2.1 (by decide)
  exact ⟨by with_unfolding_all decide, h.2.2.2, h.1.1⟩

/-- Witness for length preservation and idempotence of path disambiguation
over a (trivially fixed-point) lookup. -/
theorem disambiguatePath_length_idempotent_witness :
    (disambiguateList [] ["aa", "bb"]).length = 2 ∧
    disambiguateList [] (disambiguateList [] ["aa", "bb"]) =
      disambiguateList [] ["aa", "bb"] := by
  have h := disambiguatePath_length_idempotent [] ["aa", "bb"]
    (fun pe hpe => absurd hpe (List.not_mem_nil pe))
  exact ⟨h.1.trans (by decide), h.2.2.2.2.2⟩

/-- Witness for order-independence of the aggregation on a two-sample swap. -/
theorem aggregation_perm_invariant_witness :
    (assocFind (aggregateSamples [] [wSampleA, wSampleB]) "9q9p11").map aggView =
      (assocFind (aggregateSamples [] [wSampleB, wSampleA]) "9q9p11").map
        aggView :=
  (aggregation_perm_invariant [] [wSampleA, wSampleB] [wSampleB, wSampleA]
    (List.Perm.swap wSampleB wSampleA [])).1 "9q9p11"

/-- Witness for the null result of `resolvePrefix` on an unknown prefix, on a
candidate-less entry, and for case-insensitivity. -/
theorem resolvePrefix_unknown_witness :
    resolvePrefix [] "zz" = ⟨none, 0⟩ ∧
    resolvePrefix wEmptyLookup "qq" = ⟨none, 0⟩ ∧
    resolvePrefix [] "zZ" = resolvePrefix [] "Zz" := by
  refine ⟨(resolvePrefix_unknown [] "zz" "zz").1 (by decide),
    (resolvePrefix_unknown wEmptyLookup "qq" "qq").2.1 wEmptyEntry
      (by decide) rfl,
    (resolvePrefix_unknown [] "zZ" "Zz").2.2 (by decide)⟩

/-- Witness for the best-match invariant on a one-repeater lookup. -/
theorem lookup_bestMatch_invariant_witness :
    wEntry1.bestMatch = some "AA" ∧
    ((disambiguateList wLookup1 ["aa"]).getD 0 "" = jsToUpper "aa" ∨
      (disambiguateList wLookup1 ["aa"]).getD 0 "" = "aa") := by
  have h := lookup_bestMatch_invariant wEnv [] [wRepA] none
  exact ⟨(h.1 "AA" wEntry1 wEntry1_mem).2.1, h.2.2 ["aa"] 0 (by decide)⟩

end MeshCov
